import Mathlib

/-
Verification development for the photo-metadata-overlay engine
(src-tauri/src: types.rs, image_processing.rs, unified_engine.rs).

Shallow embedding conventions:
  * Rust strings (&str, String) are embedded as `List Char` (called `Str`).
  * Rust f32 values appearing in settings are embedded as exact fractions
    (structure Frac below, an integer numerator over a positive natural
    denominator, kept unnormalized so every operation is kernel-computable);
    the few casts the code performs (`expr as u8`, `expr as u32`) are
    embedded as truncation toward zero with saturation, which is the Rust
    cast semantics for in-range and out-of-range finite values.
  * Fallible Rust functions returning anyhow::Result are embedded as
    Except with an explicit error datatype capturing the message shape.
  * u32 arithmetic that can underflow is embedded with explicit mod 2^32
    wrapping (release-mode Rust semantics; debug mode would panic).
-/

set_option maxRecDepth 4000

abbrev Str := List Char

/-- Drops leading characters satisfying p; embeds str::trim_start_matches
for a single-char pattern when p tests that char. -/
def dropWhileL (p : Char → Bool) : Str → Str
  | [] => []
  | c :: cs => if p c then dropWhileL p cs else c :: cs

/-- Embeds str::starts_with for a literal pattern. -/
def startsWithL : Str → Str → Bool
  | [], _ => true
  | _ :: _, [] => false
  | p :: ps, c :: cs => p = c && startsWithL ps cs

/-- Embeds str::ends_with for a literal pattern. -/
def endsWithL (p s : Str) : Bool := startsWithL p.reverse s.reverse

/-- Embeds str::split for a single-char separator: "a,,b" gives three
parts, the empty string gives one empty part. -/
def splitOnCharL (sep : Char) : Str → List Str
  | [] => [[]]
  | c :: cs =>
    if c = sep then [] :: splitOnCharL sep cs
    else match splitOnCharL sep cs with
      | [] => [[c]]
      | p :: ps => (c :: p) :: ps

/-- Embeds str::trim (ASCII/Unicode whitespace at both ends). -/
def trimL (s : Str) : Str := (dropWhileL Char.isWhitespace ((dropWhileL Char.isWhitespace s.reverse).reverse))

/-- Numeric value of a digit character for radixes up to 16, as in
char::to_digit. -/
def digitValL (radix : Nat) (c : Char) : Option Nat :=
  let v : Option Nat :=
    if '0' ≤ c ∧ c ≤ '9' then some (c.toNat - '0'.toNat)
    else if 'a' ≤ c ∧ c ≤ 'f' then some (c.toNat - 'a'.toNat + 10)
    else if 'A' ≤ c ∧ c ≤ 'F' then some (c.toNat - 'A'.toNat + 10)
    else none
  match v with
  | some n => if n < radix then some n else none
  | none => none

def digitsValL (radix : Nat) (acc : Nat) : Str → Option Nat
  | [] => some acc
  | c :: cs =>
    match digitValL radix c with
    | some d => digitsValL radix (acc * radix + d) cs
    | none => none

/-- Embeds u8::from_str_radix (and u8::from_str via radix 10): an optional
leading plus sign, then a nonempty run of digits of the radix; errors when
the value overflows a u8. Unsigned parsing rejects a minus sign. -/
def parseU8Radix (radix : Nat) (s : Str) : Option Nat :=
  let t := match s with
    | '+' :: rest => rest
    | _ => s
  match t with
  | [] => none
  | _ =>
    match digitsValL radix 0 t with
    | some v => if v ≤ 255 then some v else none
    | none => none

/-- Exact-fraction embedding of finite f32 values: numerator over a
positive denominator, never normalized, so that all arithmetic on it is
plain Int/Nat arithmetic the kernel evaluates. -/
structure Frac where
  num : Int
  den : Nat
deriving DecidableEq, Repr

/-- The fraction n/1. -/
def Frac.ofNat (n : Nat) : Frac := ⟨n, 1⟩

/-- Multiplication of a fraction by a natural constant, as in the code
expression `a * 255.0`. -/
def Frac.mulNat (q : Frac) (k : Nat) : Frac := ⟨q.num * k, q.den⟩

/-- Embeds f32::from_str restricted to plain decimal literals (optional
sign, integer digits, optional fractional digits), read as an exact
fraction over a power-of-ten denominator. The claims evaluate it only at
short decimal inputs such as "0.5" on which binary f32 arithmetic is
exact, so the value matches the float the code computes. -/
def parseDecL (s : Str) : Option Frac :=
  let (neg, t) : Bool × Str := match s with
    | '-' :: rest => (true, rest)
    | '+' :: rest => (false, rest)
    | _ => (false, s)
  let signed (q : Frac) : Frac := if neg then ⟨-q.num, q.den⟩ else q
  match splitOnCharL '.' t with
  | [a] =>
    match a with
    | [] => none
    | _ =>
      match digitsValL 10 0 a with
      | some v => some (signed ⟨v, 1⟩)
      | none => none
  | [a, b] =>
    if a = [] ∧ b = [] then none
    else
      match digitsValL 10 0 a, digitsValL 10 0 b with
      | some va, some vb => some (signed ⟨va * 10 ^ b.length + vb, 10 ^ b.length⟩)
      | _, _ => none
  | _ => none

/-- Embeds the Rust cast `x as u8` on a finite f32 value: truncation
toward zero, saturating into 0..255. -/
def asU8 (q : Frac) : Nat := if q.num < 0 then 0 else min 255 (q.num.toNat / q.den)

/-- Embeds the Rust cast `x as u32` on a finite f32 value. -/
def asU32 (q : Frac) : Nat := if q.num < 0 then 0 else min (2 ^ 32 - 1) (q.num.toNat / q.den)

/-- Embeds image::Rgba of u8 channels. -/
structure Rgba where
  r : Nat
  g : Nat
  b : Nat
  a : Nat
deriving DecidableEq, Repr

/-- Error value produced by ImageProcessingService::parse_color: either
one of the with_context component messages, or the final fallthrough
message naming the whole input. -/
inductive ColorErr where
  | invalidComponent (msg : Str)
  | invalidColorFormat (input : Str)
deriving DecidableEq, Repr

instance {ε α : Type} [DecidableEq ε] [DecidableEq α] : DecidableEq (Except ε α) := fun x y =>
  match x, y with
  | .ok a, .ok b => decidable_of_iff (a = b) ⟨congrArg _, Except.ok.inj⟩
  | .error a, .error b => decidable_of_iff (a = b) ⟨congrArg _, Except.error.inj⟩
  | .ok _, .error _ => isFalse (fun h => Except.noConfusion h)
  | .error _, .ok _ => isFalse (fun h => Except.noConfusion h)

def rgbaOpen : Str := "rgba(".toList
def rgbOpen : Str := "rgb(".toList
def closeParen : Str := ")".toList

/-- Splits the inner component text on commas and trims each part, as in
`inner.split(',').map(|s| s.trim())`. -/
def splitPartsL (inner : Str) : List Str := (splitOnCharL ',' inner).map trimL

/-- Hex fallback of parse_color: strip all leading # characters, then
require exactly six remaining characters parsed as three base-16 pairs.
Falls through to the InvalidColorFormat error. -/
def parseColorHex (s : Str) (opacity : Frac) : Except ColorErr Rgba :=
  let hexStr := dropWhileL (fun c => c = '#') s
  if hexStr.length = 6 then
    match parseU8Radix 16 (hexStr.take 2) with
    | none => .error (.invalidComponent "Invalid red component in hex".toList)
    | some r =>
      match parseU8Radix 16 ((hexStr.drop 2).take 2) with
      | none => .error (.invalidComponent "Invalid green component in hex".toList)
      | some g =>
        match parseU8Radix 16 ((hexStr.drop 4).take 2) with
        | none => .error (.invalidComponent "Invalid blue component in hex".toList)
        | some b => .ok ⟨r, g, b, asU8 (opacity.mulNat 255)⟩
  else .error (.invalidColorFormat s)

/-- Middle branch of parse_color: the rgb(r,g,b) form, alpha from the
opacity argument; on a part-count mismatch control falls through to the
hex handling. -/
def parseColorRgb (s : Str) (opacity : Frac) : Except ColorErr Rgba :=
  if startsWithL rgbOpen s && endsWithL closeParen s then
    let inner := (s.drop 4).dropLast
    let parts := splitPartsL inner
    if parts.length = 3 then
      match parseU8Radix 10 (parts.getD 0 []) with
      | none => .error (.invalidComponent "Invalid red component in RGB".toList)
      | some r =>
        match parseU8Radix 10 (parts.getD 1 []) with
        | none => .error (.invalidComponent "Invalid green component in RGB".toList)
        | some g =>
          match parseU8Radix 10 (parts.getD 2 []) with
          | none => .error (.invalidComponent "Invalid blue component in RGB".toList)
          | some b => .ok ⟨r, g, b, asU8 (opacity.mulNat 255)⟩
    else parseColorHex s opacity
  else parseColorHex s opacity

/-- Embeds ImageProcessingService::parse_color: first the rgba(r,g,b,a)
form whose alpha is `(a * 255.0) as u8` and which ignores the opacity
argument, then rgb(r,g,b), then hex, then the InvalidColorFormat error. -/
def parse_color (s : Str) (opacity : Frac) : Except ColorErr Rgba :=
  if startsWithL rgbaOpen s && endsWithL closeParen s then
    let inner := (s.drop 5).dropLast
    let parts := splitPartsL inner
    if parts.length = 4 then
      match parseU8Radix 10 (parts.getD 0 []) with
      | none => .error (.invalidComponent "Invalid red component in RGBA".toList)
      | some r =>
        match parseU8Radix 10 (parts.getD 1 []) with
        | none => .error (.invalidComponent "Invalid green component in RGBA".toList)
        | some g =>
          match parseU8Radix 10 (parts.getD 2 []) with
          | none => .error (.invalidComponent "Invalid blue component in RGBA".toList)
          | some b =>
            match parseDecL (parts.getD 3 []) with
            | none => .error (.invalidComponent "Invalid alpha component in RGBA".toList)
            | some aq => .ok ⟨r, g, b, asU8 (aq.mulNat 255)⟩
    else parseColorRgb s opacity
  else parseColorRgb s opacity

/-- Shape of inputs handled (successfully or not) by the rgba branch of
parse_color: the guards plus the four-part count. -/
def rgbaShape (s : Str) : Bool :=
  (startsWithL rgbaOpen s && endsWithL closeParen s) &&
    (splitPartsL ((s.drop 5).dropLast)).length = 4

/-- Shape of inputs handled by the rgb branch. -/
def rgbShape (s : Str) : Bool :=
  (startsWithL rgbOpen s && endsWithL closeParen s) &&
    (splitPartsL ((s.drop 4).dropLast)).length = 3

/-- Shape of inputs handled by the hex branch: six characters after
stripping every leading # (so also bare or multiply-# strings). -/
def hexShape (s : Str) : Bool := (dropWhileL (fun c => c = '#') s).length = 6

/-- The hex grammar as the spec words it: a # followed by exactly six
hexadecimal digits. -/
def specHexGrammar (s : Str) : Bool :=
  match s with
  | '#' :: rest => rest.length = 6 && rest.all (fun c => (digitValL 16 c).isSome)
  | _ => false

/-- Embeds types.rs OverlayPosition. -/
inductive OverlayPosition where
  | TopLeft
  | TopRight
  | BottomLeft
  | BottomRight
deriving DecidableEq, Repr

/-- Embeds types.rs FontWeight. -/
inductive FontWeight where
  | Normal
  | Bold
deriving DecidableEq, Repr

/-- Embeds types.rs FontSettings (size is an f32). -/
structure FontSettings where
  family : Str
  size : Frac
  color : Str
  weight : FontWeight
deriving DecidableEq, Repr

/-- Embeds types.rs BackgroundSettings. -/
structure BackgroundSettings where
  color : Str
  opacity : Frac
  padding : Frac
  border_radius : Frac
deriving DecidableEq, Repr

/-- Embeds types.rs DisplayItems. -/
structure DisplayItems where
  brand : Bool
  model : Bool
  aperture : Bool
  shutter_speed : Bool
  iso : Bool
  timestamp : Bool
  location : Bool
  brand_logo : Bool
deriving DecidableEq, Repr

/-- Embeds types.rs OverlaySettings. -/
structure OverlaySettings where
  position : OverlayPosition
  font : FontSettings
  background : BackgroundSettings
  display_items : DisplayItems
deriving DecidableEq, Repr

/-- Embeds types.rs FrameStyle. -/
inductive FrameStyle where
  | Simple
  | Shadow
  | Film
  | Polaroid
  | Vintage
deriving DecidableEq, Repr

/-- Embeds serde_json::Value restricted to the constructors the claims
exercise. -/
inductive JsonValue where
  | num (n : Int)
  | str (s : Str)
deriving DecidableEq, Repr

/-- Embeds types.rs FrameSettings. The custom_properties HashMap is
embedded as the list of its entries in iteration order: two maps holding
the same entries can present them in different orders, and the order is
exactly what Debug formatting of the map exposes. -/
structure FrameSettings where
  enabled : Bool
  style : FrameStyle
  color : Str
  width : Frac
  opacity : Frac
  custom_properties : Option (List (Str × JsonValue))
deriving DecidableEq, Repr

/-- Embeds types.rs CameraInfo. -/
structure CameraInfo where
  make : Option Str
  model : Option Str
deriving DecidableEq, Repr

/-- Embeds types.rs CameraSettings. -/
structure CameraSettings where
  aperture : Option Str
  shutter_speed : Option Str
  iso : Option Nat
  focal_length : Option Str
deriving DecidableEq, Repr

/-- Embeds types.rs LocationInfo. -/
structure LocationInfo where
  latitude : Frac
  longitude : Frac
  address : Option Str
deriving DecidableEq, Repr

/-- Embeds types.rs PhotoMetadata. -/
structure PhotoMetadata where
  camera : CameraInfo
  settings : CameraSettings
  timestamp : Option Str
  location : Option LocationInfo
deriving DecidableEq, Repr

/-- Embeds `format!("ISO \x7b\x7d", iso)`. -/
def isoLine (n : Nat) : Str := "ISO ".toList ++ Nat.toDigits 10 n

/-- Embeds `lines.join("\n")`. -/
def joinNl (lines : List Str) : Str := List.intercalate ['\n'] lines

/-- Embeds ImageProcessingService::generate_overlay_text: pushes, in the
fixed order brand, model, aperture, shutter speed, iso, timestamp, each
line whose toggle is on and whose source value is present, then joins
with a newline. -/
def generate_overlay_text (m : PhotoMetadata) (d : DisplayItems) : Str :=
  let l1 : List Str := if d.brand then (match m.camera.make with
    | some s => [s]
    | none => []) else []
  let l2 : List Str := if d.model then (match m.camera.model with
    | some s => [s]
    | none => []) else []
  let l3 : List Str := if d.aperture then (match m.settings.aperture with
    | some s => [s]
    | none => []) else []
  let l4 : List Str := if d.shutter_speed then (match m.settings.shutter_speed with
    | some s => [s]
    | none => []) else []
  let l5 : List Str := if d.iso then (match m.settings.iso with
    | some n => [isoLine n]
    | none => []) else []
  let l6 : List Str := if d.timestamp then (match m.timestamp with
    | some s => [s]
    | none => []) else []
  joinNl (l1 ++ l2 ++ l3 ++ l4 ++ l5 ++ l6)

/-- Modelled from the spec wording of the overlay projection: the six
(toggle, value) pairs in the fixed field order, filtered to the retained
lines. Written independently of generate_overlay_text so the two can be
compared. -/
def specDisplayLines (m : PhotoMetadata) (d : DisplayItems) : List Str :=
  ([(d.brand, m.camera.make), (d.model, m.camera.model),
    (d.aperture, m.settings.aperture), (d.shutter_speed, m.settings.shutter_speed),
    (d.iso, m.settings.iso.map isoLine), (d.timestamp, m.timestamp)]
    : List (Bool × Option Str)).filterMap (fun p => if p.1 then p.2 else none)

/-- Number of newline-separated lines of a nonempty overlay text. -/
def lineCount (t : Str) : Nat := (splitOnCharL '\n' t).length

/-- Wrapping u32 subtraction: release-mode semantics of `a - b` on u32
operands below 2^32 (debug mode would panic on underflow). -/
def u32Wsub (a b : Nat) : Nat := (a + 2 ^ 32 - b % 2 ^ 32) % 2 ^ 32

/-- Embeds ImageProcessingService::calculate_overlay_position, a pure
function of u32 arguments performing two u32 subtractions for the right
and bottom anchors. -/
def calculate_overlay_position (position : OverlayPosition)
    (img_width img_height text_width text_height padding : Nat) : Nat × Nat :=
  match position with
  | .TopLeft => (padding, padding)
  | .TopRight => (u32Wsub (u32Wsub img_width text_width) padding, padding)
  | .BottomLeft => (padding, u32Wsub (u32Wsub img_height text_height) padding)
  | .BottomRight =>
    (u32Wsub (u32Wsub img_width text_width) padding,
     u32Wsub (u32Wsub img_height text_height) padding)

/-- Embeds the text-measurement and layout block of apply_overlay
(image_processing.rs lines 222 to 249): text_width comes from
calculate_text_width (abstracted as widthOf, since glyph advance widths
live in the font file), text_height is `overlay_settings.font.size as
u32` with no dependence on the line count, and the background rectangle
adds the padding on both sides of each dimension. Returns
(x, y, rect_width, rect_height). -/
structure OverlayLayout where
  x : Nat
  y : Nat
  text_width : Nat
  text_height : Nat
  rect_width : Nat
  rect_height : Nat
deriving DecidableEq, Repr

def overlayGeometry (widthOf : Str → Nat) (s : OverlaySettings)
    (img_width img_height : Nat) (t : Str) : OverlayLayout :=
  let text_width := widthOf t
  let text_height := asU32 s.font.size
  let padding := asU32 s.background.padding
  let xy := calculate_overlay_position s.position img_width img_height
    text_width text_height padding
  ⟨xy.1, xy.2, text_width, text_height,
   text_width + 2 * padding, text_height + 2 * padding⟩

/-- Pixel buffer of an RgbaImage, row major. -/
structure Image where
  width : Nat
  height : Nat
  pix : List Rgba
deriving DecidableEq, Repr

/-- Embeds RgbaImage::new: a canvas of transparent black pixels. -/
def newRgbaImage (w h : Nat) : Image := ⟨w, h, List.replicate (w * h) ⟨0, 0, 0, 0⟩⟩

/-- Embeds draw_shadow_frame: despite its name it sets every canvas pixel
to the frame color, identically to the Simple fill. -/
def draw_shadow_frame (canvas : Image) (_frame_width : Nat) (c : Rgba) : Image :=
  ⟨canvas.width, canvas.height, canvas.pix.map (fun _ => c)⟩

/-- Embeds draw_film_frame: sets every canvas pixel to the frame color. -/
def draw_film_frame (canvas : Image) (_frame_width : Nat) (c : Rgba) : Image :=
  ⟨canvas.width, canvas.height, canvas.pix.map (fun _ => c)⟩

/-- Embeds draw_polaroid_frame: sets every canvas pixel to the frame
color. -/
def draw_polaroid_frame (canvas : Image) (_frame_width : Nat) (c : Rgba) : Image :=
  ⟨canvas.width, canvas.height, canvas.pix.map (fun _ => c)⟩

/-- Embeds draw_vintage_frame: sets every canvas pixel to the frame
color. -/
def draw_vintage_frame (canvas : Image) (_frame_width : Nat) (c : Rgba) : Image :=
  ⟨canvas.width, canvas.height, canvas.pix.map (fun _ => c)⟩

/-- Models the per-pixel alpha compositing of image::imageops::overlay
(the over operator, premultiplied then renormalized, in integer
arithmetic). The frame-style claims never depend on its values, only on
it being applied uniformly across styles. -/
def blendOver (bot top : Rgba) : Rgba :=
  let ta := top.a
  let outA := ta + bot.a * (255 - ta) / 255
  let ch := fun (tc bc : Nat) =>
    if outA = 0 then 0
    else min 255 ((tc * ta + bc * bot.a * (255 - ta) / 255) / outA)
  ⟨ch top.r bot.r, ch top.g bot.g, ch top.b bot.b, min 255 outA⟩

/-- Embeds image::imageops::overlay(canvas, top, ox, oy): blends the top
image over the canvas at the given offset, cropping at the canvas
bounds. -/
def overlayImage (canvas top : Image) (ox oy : Nat) : Image :=
  ⟨canvas.width, canvas.height,
    (List.range (canvas.width * canvas.height)).map (fun i =>
      let x := i % canvas.width
      let y := i / canvas.width
      let bot := canvas.pix.getD i ⟨0, 0, 0, 0⟩
      if ox ≤ x ∧ x < ox + top.width ∧ oy ≤ y ∧ y < oy + top.height then
        blendOver bot (top.pix.getD ((y - oy) * top.width + (x - ox)) ⟨0, 0, 0, 0⟩)
      else bot)⟩

/-- Embeds ImageProcessingService::apply_frame: computes the enlarged
canvas, parses the frame color, dispatches on the style to decorate the
canvas, then overlays the original image centered with frame_width
margin. The Simple arm fills the canvas inline; the other four arms call
their draw helpers. -/
def apply_frame (img : Image) (frame_settings : FrameSettings) : Except ColorErr Image :=
  let frame_width := asU32 frame_settings.width
  let new_width := img.width + 2 * frame_width
  let new_height := img.height + 2 * frame_width
  match parse_color frame_settings.color frame_settings.opacity with
  | .error e => .error e
  | .ok frame_color =>
    let canvas := newRgbaImage new_width new_height
    let canvas := match frame_settings.style with
      | .Simple => ⟨canvas.width, canvas.height, canvas.pix.map (fun _ => frame_color)⟩
      | .Shadow => draw_shadow_frame canvas frame_width frame_color
      | .Film => draw_film_frame canvas frame_width frame_color
      | .Polaroid => draw_polaroid_frame canvas frame_width frame_color
      | .Vintage => draw_vintage_frame canvas frame_width frame_color
    .ok (overlayImage canvas img frame_width frame_width)

/-- Embeds unified_engine.rs CachedResult, generic over the key type the
settings_hash field stores (String in the code). -/
structure CachedResult (K : Type) where
  preview_data : List Nat
  full_data : Option (List Nat)
  timestamp : Nat
  settings_hash : K
deriving DecidableEq, Repr

/-- Embeds unified_engine.rs ProcessingResult. -/
inductive ProcessingResult where
  | Preview (data : List Nat)
  | FullQuality (data : List Nat)
  | Both (preview_data full_data : List Nat)
deriving DecidableEq, Repr

/-- Embeds unified_engine.rs ProcessingRequestType. -/
inductive ProcessingRequestType where
  | Preview
  | FullQuality
  | Both
deriving DecidableEq, Repr

/-- The in-memory HashMap of the cache, embedded as the listing of its
entries in iteration order; keys are unique. The iteration order itself
is arbitrary in a HashMap, and none of the proved properties depend on
where insertHM places an entry. -/
abbrev Cache (K : Type) := List (K × CachedResult K)

/-- Embeds HashMap::insert: replaces the value of an existing key in
place, otherwise adds a new binding. -/
def insertHM {K : Type} [DecidableEq K] : Cache K → K → CachedResult K → Cache K
  | [], k, v => [(k, v)]
  | (k0, v0) :: rest, k, v =>
    if k0 = k then (k, v) :: rest else (k0, v0) :: insertHM rest k v

/-- Embeds HashMap::get (cloned), as used by get_from_cache. -/
def lookupHM {K : Type} [DecidableEq K] : Cache K → K → Option (CachedResult K)
  | [], _ => none
  | (k0, v) :: rest, k => if k0 = k then some v else lookupHM rest k

/-- The CachedResult that update_cache builds from a ProcessingResult: a
Preview stores no full data, the other variants store Some full data. -/
def cachedOf {K : Type} (key : K) (result : ProcessingResult) (now : Nat) : CachedResult K :=
  match result with
  | .Preview data => ⟨data, none, now, key⟩
  | .FullQuality data => ⟨[], some data, now, key⟩
  | .Both preview_data full_data => ⟨preview_data, some full_data, now, key⟩

/-- Comparison used by `sorted_entries.sort_by_key(|(_, timestamp)| *timestamp)`. -/
def tsLe {K : Type} (a b : K × CachedResult K) : Prop := a.2.timestamp ≤ b.2.timestamp

instance {K : Type} : DecidableRel (tsLe (K := K)) := fun _ _ => Nat.decLe _ _

instance {K : Type} : IsTotal (K × CachedResult K) tsLe := ⟨fun _ _ => Nat.le_total _ _⟩

instance {K : Type} : IsTrans (K × CachedResult K) tsLe := ⟨fun _ _ _ => Nat.le_trans⟩

/-- Embeds UnifiedProcessingEngine::update_cache: insert the entry, then
if more than 100 entries remain, sort the entry listing by timestamp and
remove the first 20 keys of the sorted order. -/
def update_cache {K : Type} [DecidableEq K] (cache : Cache K) (key : K)
    (result : ProcessingResult) (now : Nat) : Cache K :=
  let c1 := insertHM cache key (cachedOf key result now)
  if 100 < c1.length then
    let sorted := List.insertionSort tsLe c1
    (sorted.take 20).foldl (fun acc e => acc.filter (fun p => decide ¬(p.1 = e.1))) c1
  else c1

/-- Well-formedness of the cache listing: distinct keys, as a HashMap
guarantees. -/
def KeysNodup {K : Type} (m : Cache K) : Prop := (m.map Prod.fst).Nodup

/-- The spec scenario run against the code: 101 puts of distinct keys
(the decimal digit strings of 0..100) with strictly increasing
timestamps into an initially empty cache. -/
def insert101 : Cache Str :=
  (List.range 101).foldl
    (fun c i => update_cache c (Nat.toDigits 10 i) (.Preview []) i) []

/-- Embeds the Debug rendering of a bool. -/
def debugBool (b : Bool) : Str := if b then "true".toList else "false".toList

/-- Decimal digits of an integer, as Display formats it. -/
def intDigits (n : Int) : Str :=
  if n < 0 then '-' :: Nat.toDigits 10 n.natAbs else Nat.toDigits 10 n.toNat

/-- Models the Debug rendering of an f32: integral values print with a
trailing .0, the only shapes the settings used in key-generation claims
construct; other denominators get a fraction rendering as a model
artifact. -/
def debugF32 (q : Frac) : Str :=
  if q.den = 1 then intDigits q.num ++ ".0".toList
  else intDigits q.num ++ '/' :: Nat.toDigits 10 q.den

/-- Debug rendering of a string: quoted (escape sequences omitted; the
inputs exercised hold no quotes or backslashes). -/
def quoteStr (s : Str) : Str := '"' :: s ++ ['"']

def debugOverlayPosition : OverlayPosition → Str
  | .TopLeft => "TopLeft".toList
  | .TopRight => "TopRight".toList
  | .BottomLeft => "BottomLeft".toList
  | .BottomRight => "BottomRight".toList

def debugFontWeight : FontWeight → Str
  | .Normal => "Normal".toList
  | .Bold => "Bold".toList

def debugFrameStyle : FrameStyle → Str
  | .Simple => "Simple".toList
  | .Shadow => "Shadow".toList
  | .Film => "Film".toList
  | .Polaroid => "Polaroid".toList
  | .Vintage => "Vintage".toList

/-- Embeds the Debug rendering of serde_json::Value for the constructors
modelled. -/
def debugJsonValue : JsonValue → Str
  | .num n => "Number(".toList ++ intDigits n ++ [')']
  | .str s => "String(".toList ++ quoteStr s ++ [')']

def commaJoin (ls : List Str) : Str := List.intercalate ", ".toList ls

/-- Embeds the Debug rendering of the custom_properties HashMap: entries
in iteration order between braces. This is where iteration order leaks
into the cache key. -/
def debugEntries (entries : List (Str × JsonValue)) : Str :=
  "\x7b".toList ++
    commaJoin (entries.map (fun e => quoteStr e.1 ++ ": ".toList ++ debugJsonValue e.2)) ++
    "\x7d".toList

def debugOptionWith {α : Type} (f : α → Str) : Option α → Str
  | some a => "Some(".toList ++ f a ++ [')']
  | none => "None".toList

/-- Embeds `format!("\x7b:?\x7d", font_settings)` for the derived Debug of
FontSettings. -/
def debugFontSettings (f : FontSettings) : Str :=
  "FontSettings \x7b family: ".toList ++ quoteStr f.family ++
    ", size: ".toList ++ debugF32 f.size ++
    ", color: ".toList ++ quoteStr f.color ++
    ", weight: ".toList ++ debugFontWeight f.weight ++ " \x7d".toList

def debugBackgroundSettings (b : BackgroundSettings) : Str :=
  "BackgroundSettings \x7b color: ".toList ++ quoteStr b.color ++
    ", opacity: ".toList ++ debugF32 b.opacity ++
    ", padding: ".toList ++ debugF32 b.padding ++
    ", border_radius: ".toList ++ debugF32 b.border_radius ++ " \x7d".toList

def debugDisplayItems (d : DisplayItems) : Str :=
  "DisplayItems \x7b brand: ".toList ++ debugBool d.brand ++
    ", model: ".toList ++ debugBool d.model ++
    ", aperture: ".toList ++ debugBool d.aperture ++
    ", shutter_speed: ".toList ++ debugBool d.shutter_speed ++
    ", iso: ".toList ++ debugBool d.iso ++
    ", timestamp: ".toList ++ debugBool d.timestamp ++
    ", location: ".toList ++ debugBool d.location ++
    ", brand_logo: ".toList ++ debugBool d.brand_logo ++ " \x7d".toList

/-- Embeds `format!("\x7b:?\x7d", overlay_settings)`. -/
def debugOverlaySettings (o : OverlaySettings) : Str :=
  "OverlaySettings \x7b position: ".toList ++ debugOverlayPosition o.position ++
    ", font: ".toList ++ debugFontSettings o.font ++
    ", background: ".toList ++ debugBackgroundSettings o.background ++
    ", display_items: ".toList ++ debugDisplayItems o.display_items ++ " \x7d".toList

/-- Embeds `format!("\x7b:?\x7d", frame_settings)`: the derived Debug of
FrameSettings, whose custom_properties part renders map entries in
iteration order. -/
def debugFrameSettings (f : FrameSettings) : Str :=
  "FrameSettings \x7b enabled: ".toList ++ debugBool f.enabled ++
    ", style: ".toList ++ debugFrameStyle f.style ++
    ", color: ".toList ++ quoteStr f.color ++
    ", width: ".toList ++ debugF32 f.width ++
    ", opacity: ".toList ++ debugF32 f.opacity ++
    ", custom_properties: ".toList ++ debugOptionWith debugEntries f.custom_properties ++
    " \x7d".toList

def debugRequestType : ProcessingRequestType → Str
  | .Preview => "Preview".toList
  | .FullQuality => "FullQuality".toList
  | .Both => "Both".toList

/-- Embeds UnifiedProcessingEngine::generate_cache_key at the level of
the byte stream fed to the DefaultHasher: str::hash feeds the UTF-8
bytes of each string followed by a 0xFF terminator byte, so the stream
is exactly determined by, and determines, this four-string list. Keys
are identified with hasher inputs; the claims treat 64-bit hash
collisions as excluded. -/
def generate_cache_key (input_path : Str) (overlay_settings : OverlaySettings)
    (frame_settings : FrameSettings) (request_type : ProcessingRequestType) : List Str :=
  [input_path, debugOverlaySettings overlay_settings,
   debugFrameSettings frame_settings, debugRequestType request_type]

abbrev CacheKey := List Str

/-- Embeds UnifiedProcessingEngine::extract_result_from_cache, including
the unwrap_or_default empty-bytes synthesis for a missing full-quality
half. -/
def extract_result_from_cache (cached : CachedResult CacheKey)
    (request_type : ProcessingRequestType) : ProcessingResult :=
  match request_type with
  | .Preview => .Preview cached.preview_data
  | .FullQuality => .FullQuality (cached.full_data.getD [])
  | .Both => .Both cached.preview_data (cached.full_data.getD [])

/-- The bytes the two render paths would produce for a request; stands in
for the filesystem- and pixel-level work of process_preview and
process_full_quality. -/
structure RenderOutput where
  preview : List Nat
  full : List Nat
deriving DecidableEq, Repr

/-- Embeds UnifiedProcessingEngine::process_image_unified as a state
transition on the cache: compute the key; on a hit return the extracted
result without touching the cache; on a miss run the renders (an oracle
argument here; a render failure propagates via ? with the cache
untouched), store the result with update_cache and return it. -/
def process_image_unified (cache : Cache CacheKey) (input_path : Str)
    (overlay_settings : OverlaySettings) (frame_settings : FrameSettings)
    (request_type : ProcessingRequestType) (render : Except Str RenderOutput)
    (now : Nat) : Except Str ProcessingResult × Cache CacheKey :=
  let cache_key := generate_cache_key input_path overlay_settings frame_settings request_type
  match lookupHM cache cache_key with
  | some cached => (.ok (extract_result_from_cache cached request_type), cache)
  | none =>
    match render with
    | .error e => (.error e, cache)
    | .ok out =>
      let result := match request_type with
        | .Preview => ProcessingResult.Preview out.preview
        | .FullQuality => ProcessingResult.FullQuality out.full
        | .Both => ProcessingResult.Both out.preview out.full
      (.ok result, update_cache cache cache_key result now)

/-- One call against the shared engine: the request data plus the render
oracle outcome and the wall-clock second used as the timestamp. -/
structure EngineStep where
  input_path : Str
  overlay : OverlaySettings
  frame : FrameSettings
  request : ProcessingRequestType
  render : Except Str RenderOutput
  now : Nat

/-- The cache after a sequence of process_image_unified calls against an
engine started by UnifiedProcessingEngine::new (empty cache). -/
def runEngine (steps : List EngineStep) : Cache CacheKey :=
  steps.foldl
    (fun c st =>
      (process_image_unified c st.input_path st.overlay st.frame st.request st.render st.now).2)
    []

/-- Embeds types.rs ProcessedImageInfo. -/
structure ProcessedImageInfo where
  input_path : Str
  output_path : Str
  original_size : Nat
  processed_size : Nat
  processing_time_ms : Nat
deriving DecidableEq, Repr

/-- Embeds types.rs ErrorType. -/
inductive ErrorType where
  | FileNotFound
  | InvalidFormat
  | ExifReadError
  | ImageProcessingError
  | OutputError
  | PermissionDenied
deriving DecidableEq, Repr

/-- Embeds types.rs ProcessingError. -/
structure ProcessingError where
  file_path : Str
  error_message : Str
  error_type : ErrorType
deriving DecidableEq, Repr

/-- Embeds types.rs BatchProcessingResult. -/
structure BatchProcessingResult where
  total_files : Nat
  successful : List ProcessedImageInfo
  failed : List ProcessingError
  total_time_ms : Nat
deriving DecidableEq, Repr

/-- Embeds types.rs OutputFormat. -/
inductive OutputFormat where
  | Jpeg
  | Png
deriving DecidableEq, Repr

/-- Embeds types.rs ProcessingSettings. -/
structure ProcessingSettings where
  overlay_settings : OverlaySettings
  frame_settings : FrameSettings
  output_format : OutputFormat
  quality : Nat
deriving DecidableEq, Repr

/-- Embeds `Path::new(p).file_stem().and_then(to_str).unwrap_or("processed")`:
the final path component with the extension after its last dot removed; a
name whose only dot is a leading one keeps it. -/
def fileStemOr (p : Str) : Str :=
  let name := (splitOnCharL '/' p).getLastD []
  match name with
  | [] => "processed".toList
  | c :: rest =>
    let parts := splitOnCharL '.' name
    if c = '.' ∧ ¬ rest.contains '.' then name
    else if parts.length ≤ 1 then name
    else List.intercalate ['.'] parts.dropLast

/-- Loop body of ImageProcessingService::batch_process_images for one
input path: extraction failure records an ExifReadError entry and
processing failure an ImageProcessingError entry, each naming the input
path; either way the iteration continues. The EXIF extractor and the
single-image render are the oracle arguments extract and processOne
(they live behind filesystem reads). -/
def batchStep (extract : Str → Except Str PhotoMetadata)
    (processOne : Str → PhotoMetadata → OverlaySettings → FrameSettings → Str → Nat →
      Except Str ProcessedImageInfo)
    (settings : ProcessingSettings) (output_dir : Str)
    (acc : List ProcessedImageInfo × List ProcessingError) (input_path : Str) :
    List ProcessedImageInfo × List ProcessingError :=
  let ext : Str := match settings.output_format with
    | .Jpeg => "jpg".toList
    | .Png => "png".toList
  let output_path :=
    output_dir ++ '/' :: (fileStemOr input_path ++ "_processed.".toList ++ ext)
  match extract input_path with
  | .ok metadata =>
    match processOne input_path metadata settings.overlay_settings
        settings.frame_settings output_path settings.quality with
    | .ok result => (acc.1 ++ [result], acc.2)
    | .error e => (acc.1, acc.2 ++ [⟨input_path, e, .ImageProcessingError⟩])
  | .error e => (acc.1, acc.2 ++ [⟨input_path, e, .ExifReadError⟩])

/-- Embeds ImageProcessingService::batch_process_images: folds batchStep
over the input list and reports the total count alongside the successful
and failed entries; wall-clock time is the total_time argument. -/
def batch_process_images (extract : Str → Except Str PhotoMetadata)
    (processOne : Str → PhotoMetadata → OverlaySettings → FrameSettings → Str → Nat →
      Except Str ProcessedImageInfo)
    (image_paths : List Str) (settings : ProcessingSettings) (output_dir : Str)
    (total_time : Nat) : BatchProcessingResult :=
  let run := image_paths.foldl (batchStep extract processOne settings output_dir) ([], [])
  ⟨image_paths.length, run.1, run.2, total_time⟩

/-- Sample values used by witness instantiations. -/
def sampleOverlaySettings : OverlaySettings :=
  ⟨.TopLeft, ⟨"A".toList, ⟨16, 1⟩, "#ffffff".toList, .Normal⟩,
    ⟨"#000000".toList, ⟨1, 1⟩, ⟨10, 1⟩, ⟨0, 1⟩⟩,
    ⟨true, true, true, true, true, true, false, false⟩⟩

def sampleFrameSettings : FrameSettings :=
  ⟨false, .Simple, "#000000".toList, ⟨0, 1⟩, ⟨1, 1⟩, none⟩

def sampleProcessingSettings : ProcessingSettings :=
  ⟨sampleOverlaySettings, sampleFrameSettings, .Jpeg, 95⟩

def sampleMetadata : PhotoMetadata :=
  ⟨⟨some "Canon".toList, none⟩, ⟨none, none, none, none⟩, none, none⟩

/-- Extractor oracle failing exactly on the path "bad". -/
def sampleExtract (p : Str) : Except Str PhotoMetadata :=
  if p = "bad".toList then .error "no exif".toList else .ok sampleMetadata

/-- Renderer oracle that always succeeds. -/
def sampleProcessOne (p : Str) (_m : PhotoMetadata) (_o : OverlaySettings)
    (_f : FrameSettings) (op : Str) (_q : Nat) : Except Str ProcessedImageInfo :=
  .ok ⟨p, op, 100, 50, 7⟩

def samplePaths : List Str := ["a.jpg".toList, "bad".toList, "c.png".toList]

/-- Two in-memory custom_properties maps holding the same two entries
presented in the two possible iteration orders. -/
def frameSettingsOrderA : FrameSettings :=
  ⟨true, .Simple, "#000000".toList, ⟨1, 1⟩, ⟨1, 1⟩,
    some [("a".toList, .num 1), ("b".toList, .num 2)]⟩

def frameSettingsOrderB : FrameSettings :=
  ⟨true, .Simple, "#000000".toList, ⟨1, 1⟩, ⟨1, 1⟩,
    some [("b".toList, .num 2), ("a".toList, .num 1)]⟩

/-- Invariant of cache entries reachable through process_image_unified:
any entry whose key carries the FullQuality or Both request variant
stores Some full-quality bytes, so extract_result_from_cache never
reaches its unwrap_or_default empty-bytes synthesis for it. -/
def entryGood (kv : CacheKey × CachedResult CacheKey) : Prop :=
  ∀ (p : Str) (o : OverlaySettings) (f : FrameSettings) (rt : ProcessingRequestType),
    (rt = .FullQuality ∨ rt = .Both) → kv.1 = generate_cache_key p o f rt →
    kv.2.full_data.isSome = true

/-- When the rgba guard-and-arity test fails, control falls through to the
rgb branch. -/
theorem parse_color_skip_rgba (s : Str) (o : Frac) (h : rgbaShape s = false) :
    parse_color s o = parseColorRgb s o := by
  unfold parse_color
  cases hb : (startsWithL rgbaOpen s && endsWithL closeParen s) with
  | false => simp [hb]
  | true =>
    have hlen : ¬ (splitPartsL ((s.drop 5).dropLast)).length = 4 := by
      simpa [rgbaShape, hb] using h
    simp [hb, hlen]

/-- When the rgb guard-and-arity test fails, control falls through to the
hex branch. -/
theorem parse_color_skip_rgb (s : Str) (o : Frac) (h : rgbShape s = false) :
    parseColorRgb s o = parseColorHex s o := by
  unfold parseColorRgb
  cases hb : (startsWithL rgbOpen s && endsWithL closeParen s) with
  | false => simp [hb]
  | true =>
    have hlen : ¬ (splitPartsL ((s.drop 4).dropLast)).length = 3 := by
      simpa [rgbShape, hb] using h
    simp [hb, hlen]

/-- When the stripped input is not six characters long, the hex branch
returns the InvalidColorFormat error naming the input. -/
theorem parse_color_skip_hex (s : Str) (o : Frac) (h : hexShape s = false) :
    parseColorHex s o = .error (.invalidColorFormat s) := by
  unfold parseColorHex
  have hlen : ¬ (dropWhileL (fun c => c = '#') s).length = 6 := by
    simpa [hexShape] using h
  simp [hlen]

/-- Claim C1: the spec requires the five frame styles to produce five
pairwise-distinct outputs on the same base image; the code instead gives
every style the identical flat fill, so any two styles render the same
buffer. This theorem evaluates that collapse: for every base image and
frame settings, changing only the style never changes the output. -/
theorem c1_frame_styles_render_identically (img : Image) (fs : FrameSettings)
    (s1 s2 : FrameStyle) :
    apply_frame img { fs with style := s1 } = apply_frame img { fs with style := s2 } := by
  cases s1 <;> cases s2 <;> rfl

/-- Claim C2: the spec example (bottom-right origin (890, 770) for a
1000 by 800 image, 100 by 20 text, 10 padding) holds, but when the text
plus padding exceeds the image dimension the code does not clamp the
coordinate to zero: the u32 subtraction wraps (release) or panics
(debug), giving 2^32 - 1010 instead of 0 for a 2000-wide text. -/
theorem c2_overlay_position_wraps_instead_of_clamping :
    calculate_overlay_position .BottomRight 1000 800 100 20 10 = (890, 770) ∧
    calculate_overlay_position .TopRight 1000 800 2000 20 10 = (2 ^ 32 - 1010, 10) ∧
    ¬ (calculate_overlay_position .TopRight 1000 800 2000 20 10).1 = 0 := by
  decide

/-- Claim C6 counterexample: with brand and model present and all
toggles on, the overlay text has two lines, yet the computed text height
for font size 32 is 32, not lineCount * fontSize = 64; so a multi-line
overlay is not strictly taller than fontSize. -/
theorem c6_counterexample :
    lineCount (generate_overlay_text
      ⟨⟨some "Canon".toList, some "EOS R5".toList⟩, ⟨none, none, none, none⟩, none, none⟩
      ⟨true, true, true, true, true, true, true, true⟩) = 2 ∧
    (overlayGeometry (fun _ => 100)
      ⟨.TopLeft, ⟨"Arial".toList, ⟨32, 1⟩, "#ffffff".toList, .Normal⟩,
        ⟨"#000000".toList, ⟨1, 2⟩, ⟨10, 1⟩, ⟨0, 1⟩⟩,
        ⟨true, true, true, true, true, true, true, true⟩⟩
      1000 800
      (generate_overlay_text
        ⟨⟨some "Canon".toList, some "EOS R5".toList⟩, ⟨none, none, none, none⟩, none, none⟩
        ⟨true, true, true, true, true, true, true, true⟩)).text_height = 32 ∧
    ¬ (32 = 2 * 32) := by
  decide

/-- Claim C6 as amended: the computed text bounding height always equals
`font.size as u32` and is therefore independent of the overlay text and
its line count (the code never multiplies by the number of lines). -/
theorem c6_text_height_ignores_line_count (widthOf : Str → Nat) (s : OverlaySettings)
    (iw ih : Nat) (t1 t2 : Str) :
    (overlayGeometry widthOf s iw ih t1).text_height = asU32 s.font.size ∧
    (overlayGeometry widthOf s iw ih t1).text_height =
      (overlayGeometry widthOf s iw ih t2).text_height :=
  ⟨rfl, rfl⟩

/-- Claim C3 counterexample: the claim promises alpha = round(a*255),
so parse("rgba(0,128,255,0.5)", o) = (0,128,255,128); the code casts
with `as u8`, which truncates 127.5 to 127, so the result at opacity 1
is (0,128,255,127), not (0,128,255,128). -/
theorem c3_counterexample :
    parse_color "rgba(0,128,255,0.5)".toList (Frac.ofNat 1) = .ok ⟨0, 128, 255, 127⟩ ∧
    ¬ ((Rgba.mk 0 128 255 127) = ⟨0, 128, 255, 128⟩) := by
  decide

/-- Claim C3 as amended: for the rgba form the alpha channel is the
truncation (not rounding) of a*255, and the opacity argument is ignored:
parse("rgba(0,128,255,0.5)", o) = (0,128,255,127) for every opacity o,
and on any input of rgba shape the result does not depend on o. -/
theorem c3_rgba_alpha_truncates_and_ignores_opacity :
    (∀ o : Frac, parse_color "rgba(0,128,255,0.5)".toList o = .ok ⟨0, 128, 255, 127⟩) ∧
    (∀ (s : Str) (o o' : Frac), rgbaShape s = true → parse_color s o = parse_color s o') := by
  constructor
  · intro o
    rfl
  · intro s o o' h
    simp only [rgbaShape, Bool.and_eq_true, decide_eq_true_eq] at h
    obtain ⟨h1, h3⟩ := h
    have hc : (startsWithL rgbaOpen s && endsWithL closeParen s) = true := by
      rw [h1.1, h1.2]; rfl
    unfold parse_color
    simp only [if_pos hc, if_pos h3]

/-- Claim C3 witness: the opacity-independence conjunct applied at a
concrete rgba-shaped input. -/
theorem c3_witness :
    rgbaShape "rgba(1,2,3,0.5)".toList = true ∧
    parse_color "rgba(1,2,3,0.5)".toList (Frac.ofNat 0) =
      parse_color "rgba(1,2,3,0.5)".toList (Frac.ofNat 1) :=
  ⟨by decide, c3_rgba_alpha_truncates_and_ignores_opacity.2 _ _ _ (by decide)⟩

/-- Claim C7 counterexample: "ABCDEF" matches none of the three spec
grammars (no leading #, not an rgb or rgba form), yet parse_color
accepts it and returns a color, because the code strips leading #
characters instead of requiring exactly one. -/
theorem c7_counterexample :
    specHexGrammar "ABCDEF".toList = false ∧
    startsWithL rgbOpen "ABCDEF".toList = false ∧
    startsWithL rgbaOpen "ABCDEF".toList = false ∧
    parse_color "ABCDEF".toList (Frac.ofNat 1) = .ok ⟨171, 205, 239, 255⟩ := by
  decide

/-- Claim C7 as amended: a color is only ever returned for inputs of one
of the code-accepted shapes (rgba form with four parts, rgb form with
three parts, or six characters after stripping leading # signs, so also
bare six-hex-digit strings), and an input matching none of the three
shapes fails with the InvalidColorFormat error naming the offending
input; shape-matching inputs with bad components fail with
component-specific messages instead. -/
theorem c7_unmatched_input_never_yields_color :
    (∀ (s : Str) (o : Frac) (c : Rgba), parse_color s o = .ok c →
      rgbaShape s = true ∨ rgbShape s = true ∨ hexShape s = true) ∧
    (∀ (s : Str) (o : Frac), rgbaShape s = false → rgbShape s = false → hexShape s = false →
      parse_color s o = .error (.invalidColorFormat s)) := by
  constructor
  · intro s o c hok
    by_cases h1 : rgbaShape s = true
    · exact Or.inl h1
    · have h1f : rgbaShape s = false := by simpa using h1
      rw [parse_color_skip_rgba s o h1f] at hok
      by_cases h2 : rgbShape s = true
      · exact Or.inr (Or.inl h2)
      · have h2f : rgbShape s = false := by simpa using h2
        rw [parse_color_skip_rgb s o h2f] at hok
        by_cases h3 : hexShape s = true
        · exact Or.inr (Or.inr h3)
        · have h3f : hexShape s = false := by simpa using h3
          rw [parse_color_skip_hex s o h3f] at hok
          exact Except.noConfusion hok
  · intro s o h1 h2 h3
    rw [parse_color_skip_rgba s o h1, parse_color_skip_rgb s o h2,
      parse_color_skip_hex s o h3]

/-- Claim C7 witness: both conjuncts applied at concrete inputs. -/
theorem c7_witness :
    (parse_color "rgb(10,20,30)".toList (Frac.ofNat 1) = .ok ⟨10, 20, 30, 255⟩ ∧
      (rgbaShape "rgb(10,20,30)".toList = true ∨ rgbShape "rgb(10,20,30)".toList = true ∨
        hexShape "rgb(10,20,30)".toList = true)) ∧
    (rgbaShape "blue".toList = false ∧ rgbShape "blue".toList = false ∧
      hexShape "blue".toList = false ∧
      parse_color "blue".toList (Frac.ofNat 1) = .error (.invalidColorFormat "blue".toList)) :=
  ⟨⟨by decide, c7_unmatched_input_never_yields_color.1 "rgb(10,20,30)".toList
      (Frac.ofNat 1) ⟨10, 20, 30, 255⟩ (by decide)⟩,
    ⟨by decide, by decide, by decide,
      c7_unmatched_input_never_yields_color.2 "blue".toList (Frac.ofNat 1)
        (by decide) (by decide) (by decide)⟩⟩

/-- A filterMap step produces the head option as a sublist. -/
theorem filterMap_cons_toList {α β : Type} (f : α → Option β) (a : α) (l : List α) :
    List.filterMap f (a :: l) = (f a).toList ++ List.filterMap f l := by
  cases h : f a <;> simp [List.filterMap_cons, h]

/-- An if over an option pushed inside toList. -/
theorem toList_ite {α : Type} (b : Bool) (o : Option α) :
    (if b then o else none).toList = if b then o.toList else [] := by
  cases b <;> rfl

/-- A pushed-line chunk of generate_overlay_text, rewritten as the
toList of a gated option. -/
theorem line_chunk_eq (b : Bool) (o : Option Str) :
    (if b then (match o with
      | some s => [s]
      | none => []) else ([] : List Str)) = (if b then o else none).toList := by
  cases b <;> cases o <;> rfl

/-- The iso chunk of generate_overlay_text, rewritten likewise. -/
theorem iso_chunk_eq (b : Bool) (o : Option Nat) :
    (if b then (match o with
      | some n => [isoLine n]
      | none => []) else ([] : List Str)) = (if b then o.map isoLine else none).toList := by
  cases b <;> cases o <;> rfl

/-- Claim C8: generate_overlay_text equals the spec-side projection: the
six metadata fields in the fixed order brand, model, aperture, shutter
speed, iso (formatted "ISO n"), timestamp, keeping a line exactly when
its toggle is on and its value present, joined by newlines; the order is
fixed by the list, not by toggle evaluation. -/
theorem c8_overlay_text_is_fixed_order_projection (m : PhotoMetadata) (d : DisplayItems) :
    generate_overlay_text m d = joinNl (specDisplayLines m d) := by
  unfold generate_overlay_text specDisplayLines
  simp only [filterMap_cons_toList, List.filterMap_nil, List.append_nil,
    line_chunk_eq, iso_chunk_eq, List.append_assoc]

/-- One batchStep call appends exactly one entry: a success to the first
list or a failure naming the path to the second. -/
theorem batchStep_shape (extract : Str → Except Str PhotoMetadata)
    (processOne : Str → PhotoMetadata → OverlaySettings → FrameSettings → Str → Nat →
      Except Str ProcessedImageInfo)
    (settings : ProcessingSettings) (dir : Str)
    (acc : List ProcessedImageInfo × List ProcessingError) (p : Str) :
    (∃ r, batchStep extract processOne settings dir acc p = (acc.1 ++ [r], acc.2)) ∨
    (∃ msg et, batchStep extract processOne settings dir acc p =
      (acc.1, acc.2 ++ [⟨p, msg, et⟩])) := by
  simp only [batchStep]
  split
  · split
    · left; exact ⟨_, rfl⟩
    · right; exact ⟨_, _, rfl⟩
  · right; exact ⟨_, _, rfl⟩

/-- Folding batchStep over any path list grows the two result lists by
exactly one entry per path, and every failed entry either was already in
the accumulator or names one of the paths. -/
theorem batch_fold_spec (extract : Str → Except Str PhotoMetadata)
    (processOne : Str → PhotoMetadata → OverlaySettings → FrameSettings → Str → Nat →
      Except Str ProcessedImageInfo)
    (settings : ProcessingSettings) (dir : Str) :
    ∀ (paths : List Str) (acc : List ProcessedImageInfo × List ProcessingError),
      ((paths.foldl (batchStep extract processOne settings dir) acc).1.length +
        (paths.foldl (batchStep extract processOne settings dir) acc).2.length =
        acc.1.length + acc.2.length + paths.length) ∧
      (∀ e ∈ (paths.foldl (batchStep extract processOne settings dir) acc).2,
        e ∈ acc.2 ∨ e.file_path ∈ paths) := by
  intro paths
  induction paths with
  | nil => intro acc; simp
  | cons p ps ih =>
    intro acc
    rw [List.foldl_cons]
    rcases batchStep_shape extract processOne settings dir acc p with ⟨r, hr⟩ | ⟨msg, et, hr⟩
    · rw [hr]
      constructor
      · rw [(ih _).1]
        simp
        omega
      · intro e he
        rcases (ih _).2 e he with h | h
        · exact Or.inl h
        · exact Or.inr (List.mem_cons_of_mem p h)
    · rw [hr]
      constructor
      · rw [(ih _).1]
        simp
        omega
      · intro e he
        rcases (ih _).2 e he with h | h
        · rcases List.mem_append.1 h with h2 | h2
          · exact Or.inl h2
          · simp at h2
            subst h2
            exact Or.inr (List.mem_cons_self p ps)
        · exact Or.inr (List.mem_cons_of_mem p h)

/-- Claim C9: for every input list, extractor and renderer behavior, the
batch result reports total equal to the input length, every item lands
in exactly one of successful or failed (so the two lengths sum to the
total and no failure aborts the remaining items), and every failed
entry names one of the input paths. -/
theorem c9_batch_partitions_and_does_not_abort
    (extract : Str → Except Str PhotoMetadata)
    (processOne : Str → PhotoMetadata → OverlaySettings → FrameSettings → Str → Nat →
      Except Str ProcessedImageInfo)
    (image_paths : List Str) (settings : ProcessingSettings) (output_dir : Str)
    (total_time : Nat) :
    (batch_process_images extract processOne image_paths settings output_dir
      total_time).total_files = image_paths.length ∧
    (batch_process_images extract processOne image_paths settings output_dir
      total_time).successful.length +
      (batch_process_images extract processOne image_paths settings output_dir
        total_time).failed.length = image_paths.length ∧
    (∀ e ∈ (batch_process_images extract processOne image_paths settings output_dir
      total_time).failed, e.file_path ∈ image_paths) := by
  have h := batch_fold_spec extract processOne settings output_dir image_paths ([], [])
  refine ⟨rfl, ?_, ?_⟩
  · have := h.1
    simpa [batch_process_images] using this
  · intro e he
    rcases h.2 e (by simpa [batch_process_images] using he) with h2 | h2
    · simp at h2
    · exact h2

/-- Claim C9 witness: the spec scenario of three paths with one invalid:
the failed entry naming the bad path is produced, total is 3, and the
theorem conclusion holds for it. -/
theorem c9_witness :
    ((ProcessingError.mk "bad".toList "no exif".toList .ExifReadError) ∈
      (batch_process_images sampleExtract sampleProcessOne samplePaths
        sampleProcessingSettings "/out".toList 9).failed) ∧
    (batch_process_images sampleExtract sampleProcessOne samplePaths
      sampleProcessingSettings "/out".toList 9).total_files = 3 ∧
    (batch_process_images sampleExtract sampleProcessOne samplePaths
      sampleProcessingSettings "/out".toList 9).successful.length = 2 ∧
    (ProcessingError.mk "bad".toList "no exif".toList .ExifReadError).file_path ∈
      samplePaths :=
  ⟨by decide, by decide, by decide,
    (c9_batch_partitions_and_does_not_abort sampleExtract sampleProcessOne samplePaths
      sampleProcessingSettings "/out".toList 9).2.2 _ (by decide)⟩

/-- Claim C4: the fingerprint is not a pure function of the structural
value of the settings: two FrameSettings equal in every field and whose
custom_properties maps hold the same entries (a permutation, as HashMap
iteration order is arbitrary) hash different byte streams, because
generate_cache_key feeds the Debug rendering of the HashMap, which
follows iteration order. The two keys therefore differ (up to a 64-bit
hash collision). -/
theorem c4_cache_key_sensitive_to_map_iteration_order :
    (frameSettingsOrderA.custom_properties.getD []).Perm
      (frameSettingsOrderB.custom_properties.getD []) ∧
    frameSettingsOrderA.enabled = frameSettingsOrderB.enabled ∧
    frameSettingsOrderA.style = frameSettingsOrderB.style ∧
    frameSettingsOrderA.color = frameSettingsOrderB.color ∧
    frameSettingsOrderA.width = frameSettingsOrderB.width ∧
    frameSettingsOrderA.opacity = frameSettingsOrderB.opacity ∧
    ¬ (generate_cache_key "p".toList sampleOverlaySettings frameSettingsOrderA .Preview =
        generate_cache_key "p".toList sampleOverlaySettings frameSettingsOrderB .Preview) :=
  ⟨List.Perm.swap _ _ _, rfl, rfl, rfl, rfl, rfl, by decide⟩

/-- Membership in the eviction fold: an entry survives exactly when it
was present and its key is not among the removed keys. -/
theorem mem_evictFold_iff {K : Type} [DecidableEq K] (l : List (K × CachedResult K))
    (m : Cache K) (x : K × CachedResult K) :
    (x ∈ l.foldl (fun acc e => acc.filter (fun p => decide ¬(p.1 = e.1))) m) ↔
      x ∈ m ∧ ∀ e ∈ l, ¬ x.1 = e.1 := by
  induction l generalizing m with
  | nil => simp
  | cons e l ih =>
    rw [List.foldl_cons, ih]
    simp only [List.mem_filter, decide_eq_true_eq, List.mem_cons]
    constructor
    · rintro ⟨⟨hm, hk⟩, hrest⟩
      refine ⟨hm, ?_⟩
      rintro e' (rfl | he')
      · exact hk
      · exact hrest e' he'
    · rintro ⟨hm, hall⟩
      exact ⟨⟨hm, hall e (Or.inl rfl)⟩, fun e' he' => hall e' (Or.inr he')⟩

/-- The eviction fold only removes entries. -/
theorem evictFold_sublist {K : Type} [DecidableEq K] (l : List (K × CachedResult K))
    (m : Cache K) :
    (l.foldl (fun acc e => acc.filter (fun p => decide ¬(p.1 = e.1))) m).Sublist m := by
  induction l generalizing m with
  | nil => exact List.Sublist.refl m
  | cons e l ih =>
    rw [List.foldl_cons]
    exact (ih _).trans (List.filter_sublist m)

/-- In a listing with distinct keys, an entry is determined by its key. -/
theorem eq_of_mem_keysNodup {K : Type} {m : Cache K} {x y : K × CachedResult K}
    (hnd : KeysNodup m) (hx : x ∈ m) (hy : y ∈ m) (hk : x.1 = y.1) : x = y := by
  induction m with
  | nil => cases hx
  | cons a l ih =>
    have hnd' := hnd
    simp only [KeysNodup, List.map_cons, List.nodup_cons] at hnd'
    rcases List.mem_cons.1 hx with rfl | hx' <;> rcases List.mem_cons.1 hy with rfl | hy'
    · rfl
    · exact absurd (hk ▸ List.mem_map_of_mem Prod.fst hy') hnd'.1
    · exact absurd (hk ▸ List.mem_map_of_mem Prod.fst hx') (by simpa [hk] using hnd'.1)
    · exact ih hnd'.2 hx' hy'

/-- Keys after a HashMap insert. -/
theorem insertHM_keys {K : Type} [DecidableEq K] (m : Cache K) (k : K) (v : CachedResult K) :
    (insertHM m k v).map Prod.fst =
      if k ∈ m.map Prod.fst then m.map Prod.fst else m.map Prod.fst ++ [k] := by
  induction m with
  | nil => simp [insertHM]
  | cons a l ih =>
    simp only [insertHM]
    by_cases h : a.1 = k
    · simp [h]
    · by_cases h2 : k ∈ l.map Prod.fst <;>
        simp [h, h2, ih, Ne.symm h]

/-- A HashMap insert adds at most one entry. -/
theorem insertHM_length {K : Type} [DecidableEq K] (m : Cache K) (k : K)
    (v : CachedResult K) : (insertHM m k v).length ≤ m.length + 1 := by
  have := congrArg List.length (insertHM_keys m k v)
  simp only [List.length_map] at this
  rw [this]
  split <;> simp

/-- A HashMap insert preserves key distinctness. -/
theorem insertHM_nodup {K : Type} [DecidableEq K] {m : Cache K} (k : K)
    (v : CachedResult K) (hnd : KeysNodup m) : KeysNodup (insertHM m k v) := by
  unfold KeysNodup at *
  rw [insertHM_keys]
  split
  · exact hnd
  · next h => simp [List.nodup_append, hnd, h]

/-- Entries after an insert: the new binding or an old entry. -/
theorem insertHM_mem {K : Type} [DecidableEq K] {m : Cache K} {k : K} {v : CachedResult K}
    {x : K × CachedResult K} (hx : x ∈ insertHM m k v) : x = (k, v) ∨ x ∈ m := by
  induction m with
  | nil => simpa [insertHM] using hx
  | cons a l ih =>
    simp only [insertHM] at hx
    by_cases h : a.1 = k
    · rw [if_pos h] at hx
      rcases List.mem_cons.1 hx with rfl | hx'
      · exact Or.inl rfl
      · exact Or.inr (List.mem_cons_of_mem a hx')
    · rw [if_neg h] at hx
      rcases List.mem_cons.1 hx with rfl | hx'
      · exact Or.inr (List.mem_cons_self _ _)
      · rcases ih hx' with h2 | h2
        · exact Or.inl h2
        · exact Or.inr (List.mem_cons_of_mem a h2)

/-- A successful lookup names an entry of the listing. -/
theorem lookupHM_mem {K : Type} [DecidableEq K] {m : Cache K} {k : K}
    {v : CachedResult K} (h : lookupHM m k = some v) : (k, v) ∈ m := by
  induction m with
  | nil => simp [lookupHM] at h
  | cons a l ih =>
    simp only [lookupHM] at h
    by_cases hk : a.1 = k
    · rw [if_pos hk] at h
      have hv : a.2 = v := Option.some.inj h
      have : a = (k, v) := by
        cases a
        simp only at hk hv
        rw [hk, hv]
      rw [← this]
      exact List.mem_cons_self _ _
    · rw [if_neg hk] at h
      exact List.mem_cons_of_mem a (ih h)

/-- Eviction specification: removing the first 20 keys of the
timestamp-sorted listing from a distinct-key cache removes exactly 20
entries (saturating at zero), and every removed entry has a
timestamp no larger than every survivor. -/
theorem evict_spec {K : Type} [DecidableEq K] (c1 : Cache K) (hnd : KeysNodup c1) :
    ((((List.insertionSort tsLe c1).take 20).foldl
        (fun acc e => acc.filter (fun p => decide ¬(p.1 = e.1))) c1).length =
      c1.length - 20) ∧
    (∀ x ∈ c1, x ∉ (((List.insertionSort tsLe c1).take 20).foldl
        (fun acc e => acc.filter (fun p => decide ¬(p.1 = e.1))) c1) →
      ∀ y ∈ (((List.insertionSort tsLe c1).take 20).foldl
        (fun acc e => acc.filter (fun p => decide ¬(p.1 = e.1))) c1),
        x.2.timestamp ≤ y.2.timestamp) := by
  set sorted := List.insertionSort tsLe c1 with hsorted_def
  set l := sorted.take 20 with hl_def
  set R := l.foldl (fun acc e => acc.filter (fun p => decide ¬(p.1 = e.1))) c1 with hR_def
  have hperm : sorted.Perm c1 := List.perm_insertionSort tsLe c1
  have hsort : List.Sorted tsLe sorted := List.sorted_insertionSort tsLe c1
  have hnd1 : c1.Nodup := List.Nodup.of_map Prod.fst hnd
  have hndS : sorted.Nodup := (hperm.nodup_iff).2 hnd1
  have hkeysS : (sorted.map Prod.fst).Nodup := ((hperm.map Prod.fst).nodup_iff).2 hnd
  have hsplit : l ++ sorted.drop 20 = sorted := List.take_append_drop 20 sorted
  have hmemR : ∀ x, x ∈ R ↔ x ∈ c1 ∧ ∀ e ∈ l, ¬ x.1 = e.1 :=
    fun x => mem_evictFold_iff l c1 x
  have hdisj : List.Disjoint (l.map Prod.fst) ((sorted.drop 20).map Prod.fst) := by
    have : ((l ++ sorted.drop 20).map Prod.fst).Nodup := by rw [hsplit]; exact hkeysS
    rw [List.map_append] at this
    exact List.disjoint_of_nodup_append this
  have hRd : ∀ x, x ∈ R ↔ x ∈ sorted.drop 20 := by
    intro x
    rw [hmemR]
    constructor
    · rintro ⟨hc, hk⟩
      have hxs : x ∈ sorted := (hperm.mem_iff).2 hc
      rcases List.mem_append.1 (hsplit ▸ hxs) with hx1 | hx2
      · exact absurd rfl (hk x hx1)
      · exact hx2
    · intro hx
      have hxs : x ∈ sorted := by
        rw [← hsplit]
        exact List.mem_append_right l hx
      refine ⟨(hperm.mem_iff).1 hxs, ?_⟩
      intro e he hke
      exact hdisj (hke ▸ List.mem_map_of_mem Prod.fst he)
        (List.mem_map_of_mem Prod.fst hx)
  have hRnd : R.Nodup := List.Nodup.sublist (evictFold_sublist l c1) hnd1
  have hdnd : (sorted.drop 20).Nodup := List.Nodup.sublist (List.drop_sublist 20 sorted) hndS
  have hpermRd : R.Perm (sorted.drop 20) := (List.perm_ext_iff_of_nodup hRnd hdnd).2 hRd
  constructor
  · rw [hpermRd.length_eq, List.length_drop, hperm.length_eq]
  · intro x hx hxR y hyR
    have hxl : x ∈ l := by
      have hnot := (hmemR x).not.1 hxR
      push_neg at hnot
      rcases hnot hx with ⟨e, he, hke⟩
      have hec : e ∈ c1 := (hperm.mem_iff).1 (List.take_subset 20 sorted he)
      have : x = e := eq_of_mem_keysNodup hnd hx hec hke
      rw [this]
      exact he
    have hyd : y ∈ sorted.drop 20 := (hRd y).1 hyR
    have hpw : List.Pairwise tsLe (l ++ sorted.drop 20) := by
      rw [hsplit]
      exact hsort
    exact (List.pairwise_append.1 hpw).2.2 x hxl y hyd

/-- Claim C5: after every put, if the entry count exceeds 100 the 20
entries with the oldest timestamps are evicted (exactly 20 are removed
and each removed timestamp is at most each survivor timestamp, ties
arbitrary), the size after any completed put on a bounded cache never
exceeds 100, and the concrete spec scenario holds: 101 distinct puts
into an empty cache leave 81 entries with exactly the 20
oldest-timestamp keys absent. -/
theorem c5_cache_eviction_policy {K : Type} [DecidableEq K] (cache : Cache K) (key : K)
    (result : ProcessingResult) (now : Nat) (hnd : KeysNodup cache)
    (hlen : cache.length ≤ 100) :
    ((update_cache cache key result now).length ≤ 100) ∧
    (100 < (insertHM cache key (cachedOf key result now)).length →
      (update_cache cache key result now).length =
        (insertHM cache key (cachedOf key result now)).length - 20) ∧
    (∀ x ∈ insertHM cache key (cachedOf key result now),
      x ∉ update_cache cache key result now →
      ∀ y ∈ update_cache cache key result now, x.2.timestamp ≤ y.2.timestamp) ∧
    (insert101.length = 81 ∧
      (∀ i < 20, lookupHM insert101 (Nat.toDigits 10 i) = none) ∧
      (∀ i, 20 ≤ i → i < 101 → (lookupHM insert101 (Nat.toDigits 10 i)).isSome = true)) := by
  have hconc : insert101.length = 81 ∧
      (∀ i < 20, lookupHM insert101 (Nat.toDigits 10 i) = none) ∧
      (∀ i, 20 ≤ i → i < 101 → (lookupHM insert101 (Nat.toDigits 10 i)).isSome = true) := by
    refine ⟨by decide, by decide, by decide⟩
  have hc1nd : KeysNodup (insertHM cache key (cachedOf key result now)) :=
    insertHM_nodup key (cachedOf key result now) hnd
  have hins := insertHM_length cache key (cachedOf key result now)
  by_cases h : 100 < (insertHM cache key (cachedOf key result now)).length
  · have hU : update_cache cache key result now =
        ((List.insertionSort tsLe (insertHM cache key (cachedOf key result now))).take
          20).foldl (fun acc e => acc.filter (fun p => decide ¬(p.1 = e.1)))
          (insertHM cache key (cachedOf key result now)) := by
      simp only [update_cache]
      rw [if_pos h]
    have hspec := evict_spec (insertHM cache key (cachedOf key result now)) hc1nd
    refine ⟨?_, fun _ => ?_, ?_, hconc⟩
    · rw [hU, hspec.1]
      omega
    · rw [hU, hspec.1]
    · rw [hU]
      exact hspec.2
  · have hU : update_cache cache key result now =
        insertHM cache key (cachedOf key result now) := by
      simp only [update_cache]
      rw [if_neg h]
    refine ⟨?_, fun hcon => absurd hcon h, ?_, hconc⟩
    · rw [hU]
      omega
    · rw [hU]
      intro x hx hxR
      exact absurd hx hxR

/-- Claim C5 witness: the bound applied to a put into the empty cache. -/
theorem c5_witness :
    KeysNodup ([] : Cache Str) ∧ ([] : Cache Str).length ≤ 100 ∧
    (update_cache ([] : Cache Str) "k".toList (.Preview [1]) 0).length ≤ 100 :=
  ⟨List.nodup_nil, by decide,
    (c5_cache_eviction_policy ([] : Cache Str) "k".toList (.Preview [1]) 0
      List.nodup_nil (by decide)).1⟩

/-- The Debug names of the three request variants are pairwise distinct,
so they determine the variant. -/
theorem debugRequestType_inj (rt rt' : ProcessingRequestType)
    (h : debugRequestType rt = debugRequestType rt') : rt = rt' := by
  cases rt <;> cases rt' <;> first
    | rfl
    | exact absurd h (by decide)

/-- Equal cache keys carry equal request variants. -/
theorem generate_cache_key_inj_rt {p p' : Str} {o o' : OverlaySettings}
    {f f' : FrameSettings} {rt rt' : ProcessingRequestType}
    (h : generate_cache_key p o f rt = generate_cache_key p' o' f' rt') : rt = rt' := by
  simp only [generate_cache_key, List.cons.injEq, and_true] at h
  exact debugRequestType_inj rt rt' h.2.2.2

/-- Entries after update_cache: the fresh binding or an old entry. -/
theorem update_cache_mem {K : Type} [DecidableEq K] {m : Cache K} {key : K}
    {result : ProcessingResult} {now : Nat} {x : K × CachedResult K}
    (hx : x ∈ update_cache m key result now) :
    x = (key, cachedOf key result now) ∨ x ∈ m := by
  simp only [update_cache] at hx
  by_cases h : 100 < (insertHM m key (cachedOf key result now)).length
  · rw [if_pos h] at hx
    exact insertHM_mem ((mem_evictFold_iff _ _ x).1 hx).1
  · rw [if_neg h] at hx
    exact insertHM_mem hx

/-- One engine call preserves the entryGood invariant of the cache. -/
theorem step_preserves_good (c : Cache CacheKey) (hg : ∀ kv ∈ c, entryGood kv)
    (p : Str) (o : OverlaySettings) (f : FrameSettings) (rt : ProcessingRequestType)
    (render : Except Str RenderOutput) (now : Nat) :
    ∀ kv ∈ (process_image_unified c p o f rt render now).2, entryGood kv := by
  intro kv hkv
  simp only [process_image_unified] at hkv
  split at hkv
  · exact hg kv hkv
  · split at hkv
    · exact hg kv hkv
    · rcases update_cache_mem hkv with rfl | hold
      · intro p' o' f' rt' hvar hkey
        have hrt : rt = rt' := generate_cache_key_inj_rt hkey
        subst hrt
        rcases hvar with rfl | rfl <;> rfl
      · exact hg kv hold

/-- Every cache reachable from the fresh engine satisfies entryGood. -/
theorem runEngine_good (steps : List EngineStep) : ∀ kv ∈ runEngine steps, entryGood kv := by
  have hgen : ∀ (ss : List EngineStep) (c : Cache CacheKey), (∀ kv ∈ c, entryGood kv) →
      ∀ kv ∈ ss.foldl
        (fun c st =>
          (process_image_unified c st.input_path st.overlay st.frame st.request
            st.render st.now).2) c, entryGood kv := by
    intro ss
    induction ss with
    | nil => intro c hc; exact hc
    | cons st rest ih =>
      intro c hc
      rw [List.foldl_cons]
      exact ih _ (step_preserves_good c hc st.input_path st.overlay st.frame st.request
        st.render st.now)
  exact hgen steps [] (fun kv hkv => absurd hkv (List.not_mem_nil kv))

/-- Claim C10: the cache key incorporates the request variant: for fixed
path and settings the three variants feed pairwise-distinct byte streams
to the hasher (so, hash collisions aside, distinct keys), and in every
cache reachable through process_image_unified from a fresh engine, a hit
under a FullQuality or Both key stores Some full bytes, so the
cross-variant empty-bytes synthesis path of extract_result_from_cache is
unreachable. -/
theorem c10_variant_keys_distinct_and_no_empty_synthesis :
    (∀ (p : Str) (o : OverlaySettings) (f : FrameSettings),
      ¬ (generate_cache_key p o f .Preview = generate_cache_key p o f .FullQuality) ∧
      ¬ (generate_cache_key p o f .Preview = generate_cache_key p o f .Both) ∧
      ¬ (generate_cache_key p o f .FullQuality = generate_cache_key p o f .Both)) ∧
    (∀ (steps : List EngineStep) (p : Str) (o : OverlaySettings) (f : FrameSettings)
      (rt : ProcessingRequestType) (v : CachedResult CacheKey),
      (rt = .FullQuality ∨ rt = .Both) →
      lookupHM (runEngine steps) (generate_cache_key p o f rt) = some v →
      v.full_data.isSome = true) := by
  constructor
  · intro p o f
    refine ⟨fun h => ?_, fun h => ?_, fun h => ?_⟩ <;>
      exact absurd (generate_cache_key_inj_rt h) (by decide)
  · intro steps p o f rt v hvar hlook
    exact runEngine_good steps _ (lookupHM_mem hlook) p o f rt hvar rfl

/-- Claim C10 witness: the invariant applied to a one-step trace that
renders a FullQuality request; the cached entry under that key stores
Some full bytes. -/
theorem c10_witness :
    ((ProcessingRequestType.FullQuality = .FullQuality ∨
        (ProcessingRequestType.FullQuality : ProcessingRequestType) = .Both) ∧
      lookupHM
        (runEngine [⟨"img".toList, sampleOverlaySettings, sampleFrameSettings,
          .FullQuality, .ok ⟨[1], [2, 3]⟩, 5⟩])
        (generate_cache_key "img".toList sampleOverlaySettings sampleFrameSettings
          .FullQuality) =
        some (cachedOf
          (generate_cache_key "img".toList sampleOverlaySettings sampleFrameSettings
            .FullQuality) (.FullQuality [2, 3]) 5)) ∧
    (cachedOf
      (generate_cache_key "img".toList sampleOverlaySettings sampleFrameSettings
        .FullQuality) (.FullQuality [2, 3]) 5).full_data.isSome = true :=
  ⟨⟨Or.inl rfl, by decide⟩,
    c10_variant_keys_distinct_and_no_empty_synthesis.2
      [⟨"img".toList, sampleOverlaySettings, sampleFrameSettings, .FullQuality,
        .ok ⟨[1], [2, 3]⟩, 5⟩]
      "img".toList sampleOverlaySettings sampleFrameSettings .FullQuality
      (cachedOf
        (generate_cache_key "img".toList sampleOverlaySettings sampleFrameSettings
          .FullQuality) (.FullQuality [2, 3]) 5)
      (Or.inl rfl) (by decide)⟩
